import Mathlib

/-! # backup_apps.go: a shallow embedding and its verification

The program lists the developers of an Apigee organization, lists the apps of
every developer, fetches each app, reshapes it into an `AppBackup` record and
writes the record as indented JSON into `<backupDir>_<unix seconds>`.

Conventions of the embedding

* Go `int64` values are `Int`; `IsInt64` states the range where it matters.
* A Go slice that the program builds with `var xs []T` and `append` is a
  `Slice T`, an `Option (List T)` whose `none` is the nil slice: the two are
  different values for `encoding/json` (`null` against `[]`).
* The slices the platform client returns are only ranged over, so they are
  plain lists; their elements are records (a nil element is not modelled).
* `[]byte` file contents are strings.
* Calls that leave the process (clock, file system, platform API) take their
  outcome from a `World`; `main` returns how the process ended together with
  the trace of effects and the files it wrote.
-/

set_option maxRecDepth 100000

namespace BackupApps

/-! ## Go slices -/

/-- A Go slice built by the program: `none` is the nil slice. -/
abbrev Slice (α : Type) := Option (List α)

/-- The elements of a slice; the nil slice has none. -/
def Slice.toList {α : Type} : Slice α → List α
  | none => []
  | some xs => xs

/-- Go `len`. -/
def Slice.len {α : Type} (s : Slice α) : Nat := s.toList.length

/-- Go `append(s, x)`: the result is never nil. -/
def Slice.append {α : Type} (s : Slice α) (x : α) : Slice α :=
  some (s.toList ++ [x])

/-! ## strconv.FormatInt(_, 10) -/

/-- Range of a Go `int64`. -/
def IsInt64 (x : Int) : Prop := -(2 : Int) ^ 63 ≤ x ∧ x < (2 : Int) ^ 63

instance (x : Int) : Decidable (IsInt64 x) := by
  unfold IsInt64; exact inferInstance

/-- The decimal digit character of `d < 10`. -/
def digitChar (d : Nat) : Char := Char.ofNat (48 + d)

/-- Digits of `n`, most significant first, pushed in front of `acc`; `fuel`
bounds the number of digits produced. -/
def formatBits : Nat → Nat → List Char → List Char
  | 0, _, acc => acc
  | fuel + 1, n, acc =>
    if n / 10 = 0 then digitChar (n % 10) :: acc
    else formatBits fuel (n / 10) (digitChar (n % 10) :: acc)

/-- Decimal digits of an unsigned value (`strconv.FormatUint(n, 10)`). -/
def formatUint (n : Nat) : List Char := formatBits (n + 1) n []

/-- The call `strconv.FormatInt(i, 10)`: a minus sign for a negative value,
then the digits of its magnitude. -/
def FormatInt (i : Int) : String :=
  if i < 0 then ⟨'-' :: formatUint i.natAbs⟩ else ⟨formatUint i.natAbs⟩

/-! ## Reading decimal strings back (the reference for `FormatInt`) -/

/-- Value of a decimal digit character. -/
def digitValue (c : Char) : Option Nat :=
  if 48 ≤ c.toNat ∧ c.toNat ≤ 57 then some (c.toNat - 48) else none

/-- Reads digits from the left into `acc`; any other character is an error. -/
def parseDigits : List Char → Nat → Option Nat
  | [], acc => some acc
  | c :: cs, acc =>
    match digitValue c with
    | none => none
    | some d => parseDigits cs (acc * 10 + d)

/-- The call `strconv.ParseUint(s, 10, 64)`: a non-empty run of digits
whose value fits 64 bits. -/
def ParseUint (cs : List Char) : Option Nat :=
  if cs = [] then none
  else (parseDigits cs 0).bind (fun un => if un < 2 ^ 64 then some un else none)

/-- The call `strconv.ParseInt(s, 10, 64)`: an optional sign, then an
unsigned value that must fit the signed range. -/
def ParseInt (s : String) : Option Int :=
  match s.data with
  | [] => none
  | c :: cs =>
    if c = '+' then
      (ParseUint cs).bind (fun un => if un ≥ 2 ^ 63 then none else some (un : Int))
    else if c = '-' then
      (ParseUint cs).bind (fun un => if un > 2 ^ 63 then none else some (-(un : Int)))
    else
      (ParseUint (c :: cs)).bind (fun un => if un ≥ 2 ^ 63 then none else some (un : Int))

/-- Positional value of a run of decimal digits. -/
def decimalValue (ds : List Char) : Nat :=
  ds.foldl (fun acc c => acc * 10 + (c.toNat - 48)) 0

/-- The string `s` is the base-10 numeral of `x`: a minus sign exactly when
`x` is negative, then a non-empty run of decimal digits without a leading
zero (the numeral of zero is the single digit), whose value is the
magnitude of `x`. -/
def IsDecimalOf (s : String) (x : Int) : Prop :=
  ∃ ds : List Char,
    s.data = (if x < 0 then '-' :: ds else ds) ∧
    ds ≠ [] ∧
    (∀ c ∈ ds, 48 ≤ c.toNat ∧ c.toNat ≤ 57) ∧
    (ds.head? = some '0' → ds = ['0']) ∧
    decimalValue ds = x.natAbs

/-! ## Platform records (the fields of the client library's types that are read) -/

/-- An element of `appDetails.Attributes`. -/
structure ApigeeAttribute where
  Name : String
  Value : String
deriving DecidableEq, Repr

/-- An element of `cred.ApiProducts`. -/
structure ApigeeApiProductRef where
  Apiproduct : String
  Status : String
deriving DecidableEq, Repr

/-- An element of `appDetails.Credentials`. -/
structure ApigeeCredential where
  ApiProducts : List ApigeeApiProductRef
  ConsumerKey : String
  ConsumerSecret : String
  ExpiresAt : Int
  IssuedAt : Int
  Status : String
deriving DecidableEq, Repr

/-- A developer app as the platform client returns it, both as an element of
`apps.App` and as the result of `Apps.Get`. -/
structure DeveloperApp where
  AppId : String
  Attributes : List ApigeeAttribute
  CreatedAt : Int
  Credentials : List ApigeeCredential
  DeveloperId : String
  LastModifiedAt : Int
  Name : String
  Status : String
  AppFamily : String
deriving DecidableEq, Repr

/-! ## Backup records (the types declared in the program) -/

/-- `type Attribute struct`. -/
structure Attribute where
  Name : String
  Value : String
deriving DecidableEq, Repr

/-- The anonymous struct of `APIProducts`. -/
structure APIProductEntry where
  APIProduct : String
  Status : String
deriving DecidableEq, Repr

/-- The anonymous struct of `Credentials`. -/
structure CredentialEntry where
  APIProducts : Slice APIProductEntry
  ConsumerKey : String
  ConsumerSecret : String
  ExpiresAt : String
  IssuedAt : String
  Status : String
deriving DecidableEq, Repr

/-- `type AppBackup struct`. -/
structure AppBackup where
  AppID : String
  Attributes : Slice Attribute
  CreatedAt : Int
  Credentials : Slice CredentialEntry
  DeveloperID : String
  LastModifiedAt : Int
  Name : String
  Status : String
  AppFamily : String
deriving DecidableEq, Repr

/-! ## The record transformer (body of the inner loop of `main`) -/

/-- The loop over `appDetails.Attributes`: starts from the nil slice and
appends one `Attribute` for each source attribute. -/
def buildAttributes (src : List ApigeeAttribute) : Slice Attribute :=
  src.foldl (fun attributes attr =>
    Slice.append attributes { Name := attr.Name, Value := attr.Value }) none

/-- The loop over `cred.ApiProducts`. -/
def buildApiProducts (src : List ApigeeApiProductRef) : Slice APIProductEntry :=
  src.foldl (fun apiProducts product =>
    Slice.append apiProducts { APIProduct := product.Apiproduct, Status := product.Status }) none

/-- One iteration of the loop over `appDetails.Credentials`: the element
appended for the credential `cred`. -/
def buildCredential (cred : ApigeeCredential) : CredentialEntry :=
  let expiresAt := FormatInt cred.ExpiresAt
  let issuedAt := FormatInt cred.IssuedAt
  let apiProducts := buildApiProducts cred.ApiProducts
  { APIProducts := apiProducts
    ConsumerKey := cred.ConsumerKey
    ConsumerSecret := cred.ConsumerSecret
    ExpiresAt := expiresAt
    IssuedAt := issuedAt
    Status := cred.Status }

/-- The loop over `appDetails.Credentials`. -/
def buildCredentials (src : List ApigeeCredential) : Slice CredentialEntry :=
  src.foldl (fun credentials cred => Slice.append credentials (buildCredential cred)) none

/-- The `AppBackup` literal: `app` is the element of the app list being
visited, `appDetails` the record the detail fetch returned for it. -/
def buildAppBackup (app appDetails : DeveloperApp) : AppBackup :=
  let attributes := buildAttributes appDetails.Attributes
  let credentials := buildCredentials appDetails.Credentials
  { AppID := app.AppId
    Attributes := attributes
    CreatedAt := app.CreatedAt
    Credentials := credentials
    DeveloperID := app.DeveloperId
    LastModifiedAt := app.LastModifiedAt
    Name := app.Name
    Status := app.Status
    AppFamily := app.AppFamily }

/-! ## json.MarshalIndent(appBackup, "", "  ") -/

/-- Lower-case hexadecimal digit. -/
def hexDigit (n : Nat) : Char := "0123456789abcdef".data.getD n '0'

/-- The escape `encoding/json` writes for one character of a string, with
its default HTML escaping: short escapes for the quote, the backslash and
the control characters that have one, a `u00XX` escape for the other control
characters and for the three HTML characters, an escape for U+2028 and
U+2029. -/
def jsonEscapeChar (c : Char) : List Char :=
  let bs := Char.ofNat 92
  if c = Char.ofNat 34 then [bs, Char.ofNat 34]
  else if c = bs then [bs, bs]
  else if c = Char.ofNat 8 then [bs, 'b']
  else if c = Char.ofNat 12 then [bs, 'f']
  else if c = Char.ofNat 10 then [bs, 'n']
  else if c = Char.ofNat 13 then [bs, 'r']
  else if c = Char.ofNat 9 then [bs, 't']
  else if c.toNat < 32 ∨ c = '<' ∨ c = '>' ∨ c = '&' then
    [bs, 'u', '0', '0', hexDigit (c.toNat / 16), hexDigit (c.toNat % 16)]
  else if c.toNat = 8232 then [bs, 'u', '2', '0', '2', '8']
  else if c.toNat = 8233 then [bs, 'u', '2', '0', '2', '9']
  else [c]

/-- A JSON string literal. -/
def jsonQuote (s : String) : String :=
  ⟨Char.ofNat 34 :: (s.data.flatMap jsonEscapeChar ++ [Char.ofNat 34])⟩

/-- Indentation of `depth` levels, two spaces each. -/
def indentation (depth : Nat) : String := String.join (List.replicate depth "  ")

/-- An indented JSON object whose closing brace stands at `depth`; `fields`
holds the key and the rendered value of each field, in declaration order. -/
def jsonObject (depth : Nat) (fields : List (String × String)) : String :=
  "\x7b\n" ++
  String.intercalate ",\n"
    (fields.map (fun kv => indentation (depth + 1) ++ jsonQuote kv.1 ++ ": " ++ kv.2)) ++
  "\n" ++ indentation depth ++ "\x7d"

/-- An indented JSON array whose closing bracket stands at `depth`: the nil
slice is `null`, the empty slice `[]`. -/
def jsonArray (depth : Nat) (elems : Slice String) : String :=
  match elems with
  | none => "null"
  | some [] => "[]"
  | some (x :: xs) =>
    "[\n" ++
    String.intercalate ",\n" ((x :: xs).map (fun e => indentation (depth + 1) ++ e)) ++
    "\n" ++ indentation depth ++ "]"

/-- An `Attribute` at `depth`. -/
def marshalAttribute (depth : Nat) (a : Attribute) : String :=
  jsonObject depth [("name", jsonQuote a.Name), ("value", jsonQuote a.Value)]

/-- An element of `APIProducts` at `depth`. -/
def marshalAPIProduct (depth : Nat) (p : APIProductEntry) : String :=
  jsonObject depth [("apiproduct", jsonQuote p.APIProduct), ("status", jsonQuote p.Status)]

/-- An element of `Credentials` at `depth`. -/
def marshalCredential (depth : Nat) (c : CredentialEntry) : String :=
  jsonObject depth
    [("apiProducts", jsonArray (depth + 1) (c.APIProducts.map (List.map (marshalAPIProduct (depth + 2))))),
     ("consumerKey", jsonQuote c.ConsumerKey),
     ("consumerSecret", jsonQuote c.ConsumerSecret),
     ("expiresAt", jsonQuote c.ExpiresAt),
     ("issuedAt", jsonQuote c.IssuedAt),
     ("status", jsonQuote c.Status)]

/-- The bytes of `json.MarshalIndent(appBackup, "", "  ")`: fields in
declaration order under their `json` tags. -/
def marshalIndent (b : AppBackup) : String :=
  jsonObject 0
    [("appId", jsonQuote b.AppID),
     ("attributes", jsonArray 1 (b.Attributes.map (List.map (marshalAttribute 2)))),
     ("createdAt", FormatInt b.CreatedAt),
     ("credentials", jsonArray 1 (b.Credentials.map (List.map (marshalCredential 2)))),
     ("developerId", jsonQuote b.DeveloperID),
     ("lastModifiedAt", FormatInt b.LastModifiedAt),
     ("name", jsonQuote b.Name),
     ("status", jsonQuote b.Status),
     ("appFamily", jsonQuote b.AppFamily)]

/-! ## fmt.Sprintf on string operands -/

/-- What `fmt` appends for operands the format did not use. -/
def extraOperands (args : List String) : List Char :=
  ("%!(EXTRA " ++ String.intercalate ", " (args.map (fun a => "string=" ++ a)) ++ ")").data

/-- The formatting loop of `fmt.Sprintf` for string operands, on the
directives `%%` and `%s` (no flags, width, precision or index): text is
copied, `%%` is a percent sign, `%s` is the next operand or `%!s(MISSING)`
when none is left, a `%` that ends the format is `%!(NOVERB)`, and unused
operands are reported at the end. A format with any other directive is
outside this fragment and gives `none`. -/
def doPrintf : List Char → List String → Option (List Char)
  | [], args =>
    match args with
    | [] => some []
    | a :: as => some (extraOperands (a :: as))
  | c :: rest, args =>
    if c ≠ '%' then (doPrintf rest args).map (fun out => c :: out)
    else
      match rest with
      | [] =>
        match args with
        | [] => some "%!(NOVERB)".data
        | a :: as => some ("%!(NOVERB)".data ++ extraOperands (a :: as))
      | verb :: rest' =>
        if verb = '%' then (doPrintf rest' args).map (fun out => '%' :: out)
        else if verb = 's' then
          match args with
          | [] => (doPrintf rest' []).map (fun out => "%!s(MISSING)".data ++ out)
          | a :: as => (doPrintf rest' as).map (fun out => a.data ++ out)
        else none

/-- The call `fmt.Sprintf(format, args...)` on the fragment of `doPrintf`. -/
def Sprintf (format : String) (args : List String) : Option String :=
  (doPrintf format.data args).map String.mk

/-- The file name computed for an app: `fmt.Sprintf(dirBackup+"/%s.json", app.AppId)`. -/
def appFilename (dirBackup appId : String) : Option String :=
  Sprintf (dirBackup ++ "/%s.json") [appId]

/-! ## The world outside the program -/

/-- What the operating system does with a `saveToFile`. -/
inductive SaveOutcome where
  /-- Failure of `os.OpenFile`. -/
  | openError (err : String)
  /-- Success of `os.OpenFile`, failure of `file.Write` after `written` characters. -/
  | writeError (written : Nat) (err : String)
  /-- Success of both. -/
  | success
deriving DecidableEq, Repr

/-- One element of `apps.App` with the outcomes of the calls made for it. -/
structure AppCall where
  /-- The element of `apps.App`. -/
  app : DeveloperApp
  /-- Outcome of `Apps.Get(...).Do()`. -/
  get : Except String DeveloperApp
  /-- Outcome of the file operations, consulted when `saveToFile` is reached. -/
  save : SaveOutcome

/-- One element of `developers.Developer` with the outcome of its app listing. -/
structure DeveloperCall where
  Email : String
  /-- Outcome of `Apps.List(...).Do()`. -/
  apps : Except String (List AppCall)

/-- Outcomes of every call that leaves the process, in the order the
program makes them. The two library functions whose result depends on
the value they are given are functions of that value. -/
structure World where
  /-- Result of `time.Now().Unix()`. -/
  now : Int
  /-- The error of `os.Mkdir`, if any. -/
  mkdir : Option String
  /-- Outcome of `os.ReadFile`. -/
  readFile : Except String String
  /-- The error of `google.CredentialsFromJSON`, if any. -/
  credentialsFromJSON : Option String
  /-- The error of `apigee.NewService`, if any. -/
  newService : Option String
  /-- Outcome of `Developers.List(...).Do()`. -/
  developers : Except String (List DeveloperCall)
  /-- Result of `json.MarshalIndent(appBackup, "", "  ")`. -/
  MarshalIndent : AppBackup → Except String String
  /-- Result of `fmt.Sprintf` on a format and string operands. -/
  Sprintf : String → List String → String

/-- An effect of the program, in the order effects happen. -/
inductive Event where
  | println (line : String)
  | mkdir (name : String)
  | log (msg : String)
  | readFile (name : String)
  | credentialsFromJSON (json : String)
  | newService
  | developersList (parent : String)
  | appsList (parent : String)
  | appsGet (name : String)
  | openFile (name : String)
  | write (name : String) (data : String)
  | close (name : String)
deriving DecidableEq, Repr

/-- The files the run has created or truncated, with their content. -/
abbrev Files := List (String × String)

/-- Creates the file `name` or replaces its content. -/
def Files.put : Files → String → String → Files
  | [], name, content => [(name, content)]
  | (n, c) :: fs, name, content =>
    if n = name then (n, content) :: fs else (n, c) :: Files.put fs name content

/-- State of a run: the effects so far and the files written so far. -/
structure State where
  trace : List Event
  files : Files
deriving DecidableEq, Repr

/-- Records an effect. -/
def State.emit (s : State) (e : Event) : State := { s with trace := s.trace ++ [e] }

/-- How the process ends: `main` returns, or `log.Fatal` / `log.Fatalf` exits. -/
inductive Exit where
  | returned
  | fatal
deriving DecidableEq, Repr

/-- The exit code of the process. -/
def Exit.code : Exit → Nat
  | .returned => 0
  | .fatal => 1

/-! ## The program -/

/-- `func help()`. -/
def help (s : State) : State :=
  ((((((s.emit (.println "Usage: go run main.go <serviceAccountFile> <organization> <backupDir>")).emit
    (.println "\nDescription: Este programa faz backup de todos os Apps do Apigee.")).emit
    (.println "\n- Options: <serviceAccountFile> - Arquivo json do service account")).emit
    (.println "- Options: <organization> - Organizacao Apigee")).emit
    (.println "- Options: <backupDir> - Diretorio que deseja criar. OBS: O script cria no final do diretorio _timestamp")).emit
    (.println "\nEx: go run main.go service-account.json my-org backups"))

/-- `func saveToFile(filename string, data []byte) error` under the outcome
`o` of its file operations; the second component is the returned error. -/
def saveToFile (filename data : String) (o : SaveOutcome) (s : State) : State × Option String :=
  let s := s.emit (.openFile filename)
  match o with
  | .openError err => (s, some ("erro ao abrir o arquivo: " ++ err))
  | .writeError written err =>
    let s := { s with files := s.files.put filename "" }
    let s := s.emit (.write filename data)
    let s := { s with files := s.files.put filename (data.take written) }
    (s.emit (.close filename), some ("erro ao escrever no arquivo: " ++ err))
  | .success =>
    let s := { s with files := s.files.put filename "" }
    let s := s.emit (.write filename data)
    let s := { s with files := s.files.put filename data }
    (s.emit (.close filename), none)

/-- Body of the loop over `apps.App` for one app of the developer `email`. -/
def processApp (w : World) (org email dirBackup : String) (s : State) (a : AppCall) : State :=
  let app := a.app
  let s := s.emit (.appsGet ("organizations/" ++ org ++ "/developers/" ++ email ++ "/apps/" ++ app.AppId))
  match a.get with
  | .error err => s.emit (.log ("Erro ao obter os detalhes do App: " ++ err))
  | .ok appDetails =>
    let appBackup := buildAppBackup app appDetails
    match w.MarshalIndent appBackup with
    | .error err => s.emit (.log ("Erro ao converter o App para JSON: " ++ err))
    | .ok jsonData =>
      let filename := w.Sprintf (dirBackup ++ "/%s.json") [app.AppId]
      match saveToFile filename jsonData a.save s with
      | (s, some err) => s.emit (.log ("Erro ao salvar o arquivo JSON: " ++ err))
      | (s, none) => s

/-- The loop over `developers.Developer`, which `log.Fatalf` leaves at the
first app listing that fails. -/
def developersLoop (w : World) (org dirBackup : String) : List DeveloperCall → State → Exit × State
  | [], s => (.returned, s)
  | developer :: rest, s =>
    let s := s.emit (.appsList ("organizations/" ++ org ++ "/developers/" ++ developer.Email))
    match developer.apps with
    | .error err =>
      (.fatal, s.emit (.log ("Erro ao obter a lista de apps do developer " ++ developer.Email ++ ": " ++ err)))
    | .ok apps =>
      developersLoop w org dirBackup rest (apps.foldl (processApp w org developer.Email dirBackup) s)

/-- `func main()` on the arguments `args` (`os.Args`, the program name first). -/
def main (w : World) (args : List String) : Exit × State :=
  let s : State := { trace := [], files := [] }
  if args.length < 4 then (.returned, help s)
  else
    let serviceAccountFile := args.getD 1 ""
    let org := args.getD 2 ""
    let backupDir := args.getD 3 ""
    let timestamp := w.now
    let dirBackup := backupDir ++ "_" ++ FormatInt timestamp
    let s := s.emit (.mkdir dirBackup)
    match w.mkdir with
    | some err => (.fatal, s.emit (.log err))
    | none =>
      let s := s.emit (.log ("Diretorio '" ++ backupDir ++ "' criado com sucesso."))
      let s := s.emit (.readFile serviceAccountFile)
      match w.readFile with
      | .error err =>
        (.fatal, s.emit (.log ("Erro ao carregar as credenciais de Service Account " ++ err)))
      | .ok serviceAccountJSON =>
        let s := s.emit (.credentialsFromJSON serviceAccountJSON)
        match w.credentialsFromJSON with
        | some err =>
          (.fatal, s.emit (.log ("Erro ao carregar as credenciais da Service Account: " ++ err)))
        | none =>
          let s := s.emit .newService
          match w.newService with
          | some err => (.fatal, s.emit (.log ("Erro ao criar o cliente do Apigee: " ++ err)))
          | none =>
            let s := s.emit (.developersList ("organizations/" ++ org))
            match w.developers with
            | .error err =>
              (.fatal, s.emit (.log ("Erro ao obter a lista de developers: " ++ err)))
            | .ok developers => developersLoop w org dirBackup developers s

/-! ## Reference descriptions of a run, used to state the claims -/

/-- The app list of a developer whose listing succeeded (empty otherwise). -/
def DeveloperCall.appList (d : DeveloperCall) : List AppCall :=
  match d.apps with
  | .ok apps => apps
  | .error _ => []

/-- Every app listing of `developers` succeeds. -/
def AllListsOk (developers : List DeveloperCall) : Prop :=
  ∀ d ∈ developers, ∃ apps, d.apps = .ok apps

/-- The part of `main` before the developer listing goes through: enough
arguments, the directory is created, the service account file is read, the
credentials are parsed and the client is built. -/
def BootstrapOk (w : World) (args : List String) : Prop :=
  4 ≤ args.length ∧ w.mkdir = none ∧ (∃ json, w.readFile = .ok json) ∧
    w.credentialsFromJSON = none ∧ w.newService = none

/-- The name of the directory a run creates. -/
def dirBackupOf (w : World) (args : List String) : String :=
  args.getD 3 "" ++ "_" ++ FormatInt w.now

/-- The effects of `main` up to and including the developer listing, when
the steps before it succeed. -/
def bootstrapEffects (w : World) (args : List String) : List Event :=
  [Event.mkdir (dirBackupOf w args),
   Event.log ("Diretorio '" ++ args.getD 3 "" ++ "' criado com sucesso."),
   Event.readFile (args.getD 1 ""),
   Event.credentialsFromJSON (match w.readFile with | .ok json => json | .error _ => ""),
   Event.newService,
   Event.developersList ("organizations/" ++ args.getD 2 "")]

/-- The effects of one app, as a function of that app alone: its list
entry, the outcome of its own detail fetch and of its own file operations. -/
def appEffects (w : World) (org email dirBackup : String) (a : AppCall) : List Event :=
  Event.appsGet ("organizations/" ++ org ++ "/developers/" ++ email ++ "/apps/" ++ a.app.AppId) ::
  match a.get with
  | .error err => [Event.log ("Erro ao obter os detalhes do App: " ++ err)]
  | .ok appDetails =>
    match w.MarshalIndent (buildAppBackup a.app appDetails) with
    | .error err => [Event.log ("Erro ao converter o App para JSON: " ++ err)]
    | .ok jsonData =>
      let filename := w.Sprintf (dirBackup ++ "/%s.json") [a.app.AppId]
      match a.save with
      | .openError err =>
        [Event.openFile filename,
         Event.log ("Erro ao salvar o arquivo JSON: " ++ ("erro ao abrir o arquivo: " ++ err))]
      | .writeError _ err =>
        [Event.openFile filename, Event.write filename jsonData, Event.close filename,
         Event.log ("Erro ao salvar o arquivo JSON: " ++ ("erro ao escrever no arquivo: " ++ err))]
      | .success =>
        [Event.openFile filename, Event.write filename jsonData, Event.close filename]

/-- The file one app leaves behind, if it gets as far as opening it: its
name and its content (an initial part of the JSON when the write fails). -/
def appFile (w : World) (dirBackup : String) (a : AppCall) : Option (String × String) :=
  match a.get with
  | .error _ => none
  | .ok appDetails =>
    match w.MarshalIndent (buildAppBackup a.app appDetails) with
    | .error _ => none
    | .ok jsonData =>
      let filename := w.Sprintf (dirBackup ++ "/%s.json") [a.app.AppId]
      match a.save with
      | .openError _ => none
      | .writeError written _ => some (filename, jsonData.take written)
      | .success => some (filename, jsonData)

/-- The effects of the loop over the developers. -/
def developersEffects (w : World) (org dirBackup : String) : List DeveloperCall → List Event
  | [] => []
  | d :: rest =>
    Event.appsList ("organizations/" ++ org ++ "/developers/" ++ d.Email) ::
    match d.apps with
    | .error err =>
      [Event.log ("Erro ao obter a lista de apps do developer " ++ d.Email ++ ": " ++ err)]
    | .ok apps =>
      apps.flatMap (appEffects w org d.Email dirBackup) ++ developersEffects w org dirBackup rest

/-- The apps the loop over the developers reaches, in the order it reaches them. -/
def appsReached : List DeveloperCall → List AppCall
  | [] => []
  | d :: rest =>
    match d.apps with
    | .error _ => []
    | .ok apps => apps ++ appsReached rest

/-- The detail fetch of the app fails. -/
def fetchFailed (a : AppCall) : Bool :=
  match a.get with
  | .error _ => true
  | .ok _ => false

/-- The detail fetch of the app succeeds and the serialisation of its record fails. -/
def marshalFailed (w : World) (a : AppCall) : Bool :=
  match a.get with
  | .error _ => false
  | .ok appDetails =>
    match w.MarshalIndent (buildAppBackup a.app appDetails) with
    | .error _ => true
    | .ok _ => false

/-- The app gets as far as `saveToFile` and its file cannot be opened. -/
def openFailed (w : World) (a : AppCall) : Bool :=
  match a.get with
  | .error _ => false
  | .ok appDetails =>
    match w.MarshalIndent (buildAppBackup a.app appDetails) with
    | .error _ => false
    | .ok _ =>
      match a.save with
      | .openError _ => true
      | _ => false

/-- The name of the file of an app. -/
def appFileName (w : World) (dirBackup : String) (a : AppCall) : String :=
  w.Sprintf (dirBackup ++ "/%s.json") [a.app.AppId]

/-- The event is a `file.Write`. -/
def Event.isWrite : Event → Bool
  | .write _ _ => true
  | _ => false

/-- The app opens its file: it leaves a file behind. -/
def opensFile (w : World) (dirBackup : String) (a : AppCall) : Bool :=
  (appFile w dirBackup a).isSome

/-- The event is a line on standard output. -/
def Event.isPrintln : Event → Bool
  | .println _ => true
  | _ => false

/-! ## Sample inputs -/

/-- A detail record: two attributes, one credential with one API product. -/
def sampleDetails : DeveloperApp :=
  { AppId := "app-123"
    Attributes := [{ Name := "tier", Value := "gold" }, { Name := "owner", Value := "team-a" }]
    CreatedAt := 1690000000000
    Credentials :=
      [{ ApiProducts := [{ Apiproduct := "default", Status := "approved" }]
         ConsumerKey := "K"
         ConsumerSecret := "S"
         ExpiresAt := 1700003600000
         IssuedAt := 1700000000000
         Status := "approved" }]
    DeveloperId := "dev-1"
    LastModifiedAt := 1690000000001
    Name := "My App"
    Status := "approved"
    AppFamily := "default" }

/-- A list entry that carries the app identifier only. -/
def sampleEntry : DeveloperApp :=
  { AppId := "app-123", Attributes := [], CreatedAt := 0, Credentials := [],
    DeveloperId := "", LastModifiedAt := 0, Name := "", Status := "", AppFamily := "" }

/-- A list entry with the same identifier and another name. -/
def renamedEntry : DeveloperApp := { sampleEntry with Name := "Other" }

/-- A detail record without attributes and without credentials. -/
def bareDetails : DeveloperApp :=
  { sampleDetails with Attributes := [], Credentials := [] }

/-- A detail record whose credential carries the two extreme timestamps. -/
def extremeDetails : DeveloperApp :=
  { sampleDetails with
    Credentials :=
      [{ ApiProducts := []
         ConsumerKey := "K"
         ConsumerSecret := "S"
         ExpiresAt := 9223372036854775807
         IssuedAt := -9223372036854775808
         Status := "approved" }] }

/-- `fmt.Sprintf` for the sample worlds: the fragment of `doPrintf`. -/
def sampleSprintf (format : String) (args : List String) : String :=
  (Sprintf format args).getD ""

/-- A world in which every step before the app loop succeeds, with the
given developers. -/
def sampleWorld (developers : Except String (List DeveloperCall)) : World :=
  { now := 1700000000
    mkdir := none
    readFile := .ok "service-account"
    credentialsFromJSON := none
    newService := none
    developers := developers
    MarshalIndent := fun b => .ok (marshalIndent b)
    Sprintf := sampleSprintf }

/-- The arguments of the usage example. -/
def sampleArgs : List String := ["backup_apps", "service-account.json", "my-org", "backups"]

/-- One developer with one app. -/
def oneApp (get : Except String DeveloperApp) (save : SaveOutcome) : List DeveloperCall :=
  [{ Email := "dev@acme.com", apps := .ok [{ app := sampleEntry, get := get, save := save }] }]

/-- A developer whose app listing fails after a developer with one app. -/
def secondListFails : List DeveloperCall :=
  oneApp (.ok sampleDetails) .success ++
    [{ Email := "late@acme.com", apps := .error "503" },
     { Email := "never@acme.com",
       apps := .ok [{ app := renamedEntry, get := .ok sampleDetails, save := .success }] }]

/-- One developer with three apps: the detail fetch of the first fails, the
file of the second cannot be opened, the third is written. -/
def mixedOutcomes : List DeveloperCall :=
  [{ Email := "dev@acme.com"
     apps := .ok
       [{ app := { sampleEntry with AppId := "app-1" }, get := .error "404", save := .success },
        { app := { sampleEntry with AppId := "app-2" }, get := .ok sampleDetails,
          save := .openError "permission denied" },
        { app := { sampleEntry with AppId := "app-3" }, get := .ok sampleDetails,
          save := .success }] }]

/-! ## Lemmas on decimal formatting -/

theorem digitChar_toNat (d : Nat) (h : d < 10) : (digitChar d).toNat = 48 + d := by
  interval_cases d <;> rfl

theorem digitValue_digitChar (d : Nat) (h : d < 10) : digitValue (digitChar d) = some d := by
  interval_cases d <;> rfl

theorem digitChar_ne_sign (d : Nat) (h : d < 10) : digitChar d ≠ '+' ∧ digitChar d ≠ '-' := by
  interval_cases d <;> decide

theorem digitChar_eq_zero (d : Nat) (h : d < 10) (h0 : digitChar d = '0') : d = 0 := by
  interval_cases d <;> revert h0 <;> decide

theorem formatBits_eq (n : Nat) : ∀ fuel acc, n < fuel →
    formatBits fuel n acc = formatUint n ++ acc := by
  induction n using Nat.strong_induction_on with
  | _ n ih =>
    intro fuel acc hfuel
    obtain ⟨f, rfl⟩ : ∃ f, fuel = f + 1 := ⟨fuel - 1, by omega⟩
    by_cases h : n / 10 = 0
    · simp [formatBits, formatUint, h]
    · have hlt : n / 10 < n := by omega
      have h1 := ih (n / 10) hlt f (digitChar (n % 10) :: acc) (by omega)
      have h2 := ih (n / 10) hlt n [digitChar (n % 10)] hlt
      simp only [formatBits, formatUint, h, if_false] at h1 h2 ⊢
      rw [h1, h2]
      simp [formatUint]

theorem formatUint_small (n : Nat) (h : n < 10) : formatUint n = [digitChar n] := by
  have h0 : n / 10 = 0 := by omega
  have h1 : n % 10 = n := by omega
  simp [formatUint, formatBits, h0, h1]

theorem formatUint_step (n : Nat) (h : 10 ≤ n) :
    formatUint n = formatUint (n / 10) ++ [digitChar (n % 10)] := by
  have h0 : ¬ n / 10 = 0 := by omega
  have := formatBits_eq (n / 10) n [digitChar (n % 10)] (by omega)
  simp only [formatUint, formatBits, h0, if_false] at this ⊢
  rw [this]

theorem formatUint_ne_nil (n : Nat) : formatUint n ≠ [] := by
  by_cases h : n < 10
  · simp [formatUint_small n h]
  · simp [formatUint_step n (by omega)]

theorem formatUint_isDigit (n : Nat) : ∀ c ∈ formatUint n, 48 ≤ c.toNat ∧ c.toNat ≤ 57 := by
  induction n using Nat.strong_induction_on with
  | _ n ih =>
    intro c hc
    by_cases h : n < 10
    · rw [formatUint_small n h] at hc
      simp only [List.mem_singleton] at hc
      subst hc
      rw [digitChar_toNat n h]
      omega
    · rw [formatUint_step n (by omega)] at hc
      rcases List.mem_append.mp hc with hc | hc
      · exact ih (n / 10) (by omega) c hc
      · simp only [List.mem_singleton] at hc
        subst hc
        rw [digitChar_toNat (n % 10) (by omega)]
        omega

theorem formatUint_head (n : Nat) (h0 : (formatUint n).head? = some '0') : n = 0 := by
  induction n using Nat.strong_induction_on with
  | _ n ih =>
    by_cases h : n < 10
    · rw [formatUint_small n h] at h0
      simp only [List.head?_cons, Option.some.injEq] at h0
      exact digitChar_eq_zero n h h0
    · exfalso
      rw [formatUint_step n (by omega)] at h0
      have hne := formatUint_ne_nil (n / 10)
      cases hq : formatUint (n / 10) with
      | nil => exact hne hq
      | cons d ds =>
        have hh : (formatUint (n / 10)).head? = some '0' := by
          rw [hq] at h0 ⊢
          simpa using h0
        have := ih (n / 10) (by omega) hh
        omega

theorem decimalValue_formatUint (n : Nat) : decimalValue (formatUint n) = n := by
  induction n using Nat.strong_induction_on with
  | _ n ih =>
    by_cases h : n < 10
    · rw [formatUint_small n h]
      simp [decimalValue, digitChar_toNat n h]
    · have hq := ih (n / 10) (by omega)
      rw [formatUint_step n (by omega)]
      unfold decimalValue at hq ⊢
      rw [List.foldl_append, hq]
      simp only [List.foldl_cons, List.foldl_nil, digitChar_toNat (n % 10) (by omega)]
      omega

theorem parseDigits_append (xs ys : List Char) : ∀ acc,
    parseDigits (xs ++ ys) acc = (parseDigits xs acc).bind (parseDigits ys) := by
  induction xs with
  | nil => intro acc; simp [parseDigits]
  | cons c cs ih =>
    intro acc
    simp only [List.cons_append, parseDigits]
    cases digitValue c with
    | none => simp
    | some d => simp [ih]

theorem parseDigits_formatUint (n : Nat) : parseDigits (formatUint n) 0 = some n := by
  induction n using Nat.strong_induction_on with
  | _ n ih =>
    by_cases h : n < 10
    · rw [formatUint_small n h]
      simp [parseDigits, digitValue_digitChar n h]
    · rw [formatUint_step n (by omega), parseDigits_append, ih (n / 10) (by omega)]
      simp only [Option.some_bind, parseDigits, digitValue_digitChar (n % 10) (by omega)]
      congr 1
      omega

theorem ParseUint_formatUint (n : Nat) (h : n < 2 ^ 64) : ParseUint (formatUint n) = some n := by
  unfold ParseUint
  rw [if_neg (formatUint_ne_nil n), parseDigits_formatUint]
  simp only [Option.some_bind, if_pos h]

theorem formatUint_head_ne_sign (n : Nat) :
    ∃ c cs, formatUint n = c :: cs ∧ c ≠ '+' ∧ c ≠ '-' := by
  cases hq : formatUint n with
  | nil => exact absurd hq (formatUint_ne_nil n)
  | cons c cs =>
    refine ⟨c, cs, rfl, ?_, ?_⟩
    · intro hc
      have := formatUint_isDigit n c (by rw [hq]; simp)
      rw [hc] at this
      revert this
      decide
    · intro hc
      have := formatUint_isDigit n c (by rw [hq]; simp)
      rw [hc] at this
      revert this
      decide

/-- Parsing the output of `FormatInt` returns the value formatted, over the
whole `int64` range. -/
theorem ParseInt_FormatInt (x : Int) (hx : IsInt64 x) : ParseInt (FormatInt x) = some x := by
  obtain ⟨hlo, hhi⟩ := hx
  by_cases hneg : x < 0
  · have hb : x.natAbs < 2 ^ 64 := by omega
    have hc : ¬ x.natAbs > 2 ^ 63 := by omega
    have hv : -((x.natAbs : Nat) : Int) = x := by omega
    simp only [FormatInt, hneg, if_true, ParseInt]
    rw [ParseUint_formatUint _ hb]
    simp only [Option.some_bind, if_neg hc, hv]
    rw [if_neg (by decide)]
  · have hb : x.natAbs < 2 ^ 64 := by omega
    have hc : ¬ x.natAbs ≥ 2 ^ 63 := by omega
    have hv : ((x.natAbs : Nat) : Int) = x := by omega
    obtain ⟨c, cs, hq, hp, hm⟩ := formatUint_head_ne_sign x.natAbs
    simp only [FormatInt, hneg, if_false, ParseInt]
    rw [hq]
    simp only [if_neg hp, if_neg hm]
    rw [← hq, ParseUint_formatUint _ hb]
    simp only [Option.some_bind, if_neg hc, hv]

/-- The output of `FormatInt` is the base-10 numeral of its argument. -/
theorem FormatInt_isDecimalOf (x : Int) : IsDecimalOf (FormatInt x) x := by
  refine ⟨formatUint x.natAbs, ?_, formatUint_ne_nil _, formatUint_isDigit _, ?_,
    decimalValue_formatUint _⟩
  · by_cases hneg : x < 0 <;> simp [FormatInt, hneg]
  · intro h0
    have := formatUint_head _ h0
    rw [this]
    rfl

/-! ## Lemmas on the slices the transformer builds -/

theorem foldl_append_eq {α β : Type} (f : α → β) (xs : List α) : ∀ init : Slice β,
    xs ≠ [] →
    xs.foldl (fun s x => Slice.append s (f x)) init = some (init.toList ++ xs.map f) := by
  induction xs with
  | nil => intro init h; exact absurd rfl h
  | cons x xs ih =>
    intro init _
    rw [List.foldl_cons]
    by_cases h : xs = []
    · subst h
      simp [Slice.append]
    · rw [ih _ h]
      simp [Slice.append, Slice.toList]

theorem buildAttributes_eq (src : List ApigeeAttribute) :
    buildAttributes src =
      if src = [] then none
      else some (src.map (fun attr => { Name := attr.Name, Value := attr.Value })) := by
  by_cases h : src = []
  · subst h
    rfl
  · rw [if_neg h]
    exact foldl_append_eq (fun attr : ApigeeAttribute =>
      ({ Name := attr.Name, Value := attr.Value } : Attribute)) src none h

theorem buildApiProducts_eq (src : List ApigeeApiProductRef) :
    buildApiProducts src =
      if src = [] then none
      else some (src.map (fun product =>
        { APIProduct := product.Apiproduct, Status := product.Status })) := by
  by_cases h : src = []
  · subst h
    rfl
  · rw [if_neg h]
    exact foldl_append_eq (fun product : ApigeeApiProductRef =>
      ({ APIProduct := product.Apiproduct, Status := product.Status } : APIProductEntry))
      src none h

theorem buildCredentials_eq (src : List ApigeeCredential) :
    buildCredentials src = if src = [] then none else some (src.map buildCredential) := by
  by_cases h : src = []
  · subst h
    rfl
  · rw [if_neg h]
    exact foldl_append_eq buildCredential src none h

theorem buildAttributes_toList (src : List ApigeeAttribute) :
    (buildAttributes src).toList =
      src.map (fun attr => { Name := attr.Name, Value := attr.Value }) := by
  rw [buildAttributes_eq]
  by_cases h : src = [] <;> simp [h, Slice.toList]

theorem buildApiProducts_toList (src : List ApigeeApiProductRef) :
    (buildApiProducts src).toList =
      src.map (fun product => { APIProduct := product.Apiproduct, Status := product.Status }) := by
  rw [buildApiProducts_eq]
  by_cases h : src = [] <;> simp [h, Slice.toList]

theorem buildCredentials_toList (src : List ApigeeCredential) :
    (buildCredentials src).toList = src.map buildCredential := by
  rw [buildCredentials_eq]
  by_cases h : src = [] <;> simp [h, Slice.toList]

/-! ## The claims on the record transformer -/

/-- C7. For a detail record with a non-empty attribute list, the attribute
list of the backup record is present, has the length of the source list, and
its i-th element carries the name and the value of the i-th source
attribute. -/
theorem attributes_copied_in_order (app appDetails : DeveloperApp)
    (h : appDetails.Attributes ≠ []) :
    (buildAppBackup app appDetails).Attributes ≠ none ∧
    (buildAppBackup app appDetails).Attributes.len = appDetails.Attributes.length ∧
    ∀ (i : Nat) (hi : i < appDetails.Attributes.length),
      (buildAppBackup app appDetails).Attributes.toList[i]? =
        some { Name := appDetails.Attributes[i].Name, Value := appDetails.Attributes[i].Value } := by
  refine ⟨?_, ?_, ?_⟩
  · simp [buildAppBackup, buildAttributes_eq, h]
  · simp [buildAppBackup, Slice.len, buildAttributes_toList]
  · intro i hi
    simp [buildAppBackup, buildAttributes_toList, List.getElem?_map, List.getElem?_eq_getElem hi]

/-- C6. The credential list of the backup record has the length of the
source credential list; its i-th element carries the consumer key, the
consumer secret and the status of the i-th source credential, and an
API-product list of the source length whose j-th entry carries the product
name and the status of the j-th source entry. -/
theorem credentials_copied_in_order (app appDetails : DeveloperApp) :
    (buildAppBackup app appDetails).Credentials.len = appDetails.Credentials.length ∧
    ∀ (i : Nat) (hi : i < appDetails.Credentials.length),
      ∃ c : CredentialEntry,
        (buildAppBackup app appDetails).Credentials.toList[i]? = some c ∧
        c.ConsumerKey = appDetails.Credentials[i].ConsumerKey ∧
        c.ConsumerSecret = appDetails.Credentials[i].ConsumerSecret ∧
        c.Status = appDetails.Credentials[i].Status ∧
        c.APIProducts.len = appDetails.Credentials[i].ApiProducts.length ∧
        ∀ (j : Nat) (hj : j < appDetails.Credentials[i].ApiProducts.length),
          c.APIProducts.toList[j]? =
            some { APIProduct := appDetails.Credentials[i].ApiProducts[j].Apiproduct,
                   Status := appDetails.Credentials[i].ApiProducts[j].Status } := by
  refine ⟨?_, ?_⟩
  · simp [buildAppBackup, Slice.len, buildCredentials_toList]
  · intro i hi
    refine ⟨buildCredential appDetails.Credentials[i], ?_, rfl, rfl, rfl, ?_, ?_⟩
    · simp [buildAppBackup, buildCredentials_toList, List.getElem?_map,
        List.getElem?_eq_getElem hi]
    · simp [buildCredential, Slice.len, buildApiProducts_toList]
    · intro j hj
      simp [buildCredential, buildApiProducts_toList, List.getElem?_map,
        List.getElem?_eq_getElem hj]

/-- C5. For a credential of the detail record whose `issuedAt` and
`expiresAt` are 64-bit signed integers, the credential at the same position
of the backup record carries their base-10 numerals (a minus sign exactly
for a negative value, no leading zero), and `ParseInt` reads each numeral
back to the original integer. -/
theorem credential_timestamps_exact (app appDetails : DeveloperApp) (i : Nat)
    (hi : i < appDetails.Credentials.length)
    (hIssued : IsInt64 appDetails.Credentials[i].IssuedAt)
    (hExpires : IsInt64 appDetails.Credentials[i].ExpiresAt) :
    ∃ c : CredentialEntry,
      (buildAppBackup app appDetails).Credentials.toList[i]? = some c ∧
      IsDecimalOf c.IssuedAt appDetails.Credentials[i].IssuedAt ∧
      ParseInt c.IssuedAt = some appDetails.Credentials[i].IssuedAt ∧
      IsDecimalOf c.ExpiresAt appDetails.Credentials[i].ExpiresAt ∧
      ParseInt c.ExpiresAt = some appDetails.Credentials[i].ExpiresAt := by
  refine ⟨buildCredential appDetails.Credentials[i], ?_, FormatInt_isDecimalOf _,
    ParseInt_FormatInt _ hIssued, FormatInt_isDecimalOf _, ParseInt_FormatInt _ hExpires⟩
  simp [buildAppBackup, buildCredentials_toList, List.getElem?_map, List.getElem?_eq_getElem hi]

/-! ## Lemmas on the run -/

theorem Files.put_put (fs : Files) (name c c' : String) :
    (fs.put name c).put name c' = fs.put name c' := by
  induction fs with
  | nil => simp [Files.put]
  | cons x fs ih =>
    obtain ⟨n, d⟩ := x
    by_cases h : n = name
    · simp [Files.put, h]
    · simp [Files.put, h, ih]

theorem processApp_trace (w : World) (org email dirBackup : String) (s : State) (a : AppCall) :
    (processApp w org email dirBackup s a).trace =
      s.trace ++ appEffects w org email dirBackup a := by
  unfold processApp appEffects
  cases hget : a.get with
  | error err => simp [State.emit]
  | ok appDetails =>
    simp only []
    cases hm : w.MarshalIndent (buildAppBackup a.app appDetails) with
    | error err => simp [State.emit]
    | ok jsonData =>
      cases hs : a.save <;> simp [saveToFile, State.emit]

theorem processApp_files (w : World) (org email dirBackup : String) (s : State) (a : AppCall) :
    (processApp w org email dirBackup s a).files =
      match appFile w dirBackup a with
      | none => s.files
      | some f => s.files.put f.1 f.2 := by
  unfold processApp appFile
  cases hget : a.get with
  | error err => simp [State.emit]
  | ok appDetails =>
    simp only []
    cases hm : w.MarshalIndent (buildAppBackup a.app appDetails) with
    | error err => simp [State.emit]
    | ok jsonData =>
      cases hs : a.save <;> simp [saveToFile, State.emit, Files.put_put]

theorem appsLoop_trace (w : World) (org email dirBackup : String) (apps : List AppCall) :
    ∀ s : State, (apps.foldl (processApp w org email dirBackup) s).trace =
      s.trace ++ apps.flatMap (appEffects w org email dirBackup) := by
  induction apps with
  | nil => intro s; simp
  | cons a apps ih =>
    intro s
    rw [List.foldl_cons, ih, processApp_trace]
    simp [List.flatMap_cons]

theorem appsLoop_files (w : World) (org email dirBackup : String) (apps : List AppCall) :
    ∀ s : State, (apps.foldl (processApp w org email dirBackup) s).files =
      (apps.filterMap (appFile w dirBackup)).foldl (fun fs f => fs.put f.1 f.2) s.files := by
  induction apps with
  | nil => intro s; simp
  | cons a apps ih =>
    intro s
    rw [List.foldl_cons, ih, processApp_files]
    cases h : appFile w dirBackup a with
    | none => simp [List.filterMap_cons, h]
    | some f => simp [List.filterMap_cons, h]

theorem developersLoop_trace (w : World) (org dirBackup : String) (devs : List DeveloperCall) :
    ∀ s : State, (developersLoop w org dirBackup devs s).2.trace =
      s.trace ++ developersEffects w org dirBackup devs := by
  induction devs with
  | nil => intro s; simp [developersLoop, developersEffects]
  | cons d rest ih =>
    intro s
    unfold developersLoop developersEffects
    cases h : d.apps with
    | error err => simp [State.emit]
    | ok apps => simp [ih, appsLoop_trace, State.emit]

theorem developersLoop_files (w : World) (org dirBackup : String) (devs : List DeveloperCall) :
    ∀ s : State, (developersLoop w org dirBackup devs s).2.files =
      ((appsReached devs).filterMap (appFile w dirBackup)).foldl
        (fun fs f => fs.put f.1 f.2) s.files := by
  induction devs with
  | nil => intro s; simp [developersLoop, appsReached]
  | cons d rest ih =>
    intro s
    unfold developersLoop appsReached
    cases h : d.apps with
    | error err => simp [State.emit]
    | ok apps => simp [ih, appsLoop_files, State.emit, List.filterMap_append]

theorem developersLoop_exit_returned (w : World) (org dirBackup : String)
    (devs : List DeveloperCall) (hok : AllListsOk devs) :
    ∀ s : State, (developersLoop w org dirBackup devs s).1 = Exit.returned := by
  induction devs with
  | nil => intro s; rfl
  | cons d rest ih =>
    intro s
    obtain ⟨apps, h⟩ := hok d (by simp)
    unfold developersLoop
    simp only [h]
    exact ih (fun d' hd' => hok d' (List.mem_cons_of_mem _ hd')) _

theorem developersLoop_exit_fatal (w : World) (org dirBackup : String)
    (pre : List DeveloperCall) (d : DeveloperCall) (post : List DeveloperCall) (err : String)
    (hok : AllListsOk pre) (hd : d.apps = .error err) :
    ∀ s : State, (developersLoop w org dirBackup (pre ++ d :: post) s).1 = Exit.fatal := by
  induction pre with
  | nil => intro s; simp [developersLoop, hd]
  | cons p pre ih =>
    intro s
    obtain ⟨apps, h⟩ := hok p (by simp)
    simp only [List.cons_append]
    unfold developersLoop
    simp only [h]
    exact ih (fun d' hd' => hok d' (List.mem_cons_of_mem _ hd')) _

theorem developersEffects_of_ok (w : World) (org dirBackup : String)
    (devs : List DeveloperCall) (hok : AllListsOk devs) :
    developersEffects w org dirBackup devs =
      devs.flatMap (fun d =>
        Event.appsList ("organizations/" ++ org ++ "/developers/" ++ d.Email) ::
          d.appList.flatMap (appEffects w org d.Email dirBackup)) := by
  induction devs with
  | nil => rfl
  | cons d rest ih =>
    obtain ⟨apps, h⟩ := hok d (by simp)
    have ih' := ih (fun d' hd' => hok d' (List.mem_cons_of_mem _ hd'))
    simp [developersEffects, DeveloperCall.appList, h, ih', List.flatMap_cons]

theorem developersEffects_fatal (w : World) (org dirBackup : String)
    (pre : List DeveloperCall) (d : DeveloperCall) (post : List DeveloperCall) (err : String)
    (hok : AllListsOk pre) (hd : d.apps = .error err) :
    developersEffects w org dirBackup (pre ++ d :: post) =
      developersEffects w org dirBackup pre ++
        [Event.appsList ("organizations/" ++ org ++ "/developers/" ++ d.Email),
         Event.log ("Erro ao obter a lista de apps do developer " ++ d.Email ++ ": " ++ err)] := by
  induction pre with
  | nil => simp [developersEffects, hd]
  | cons p pre ih =>
    obtain ⟨apps, h⟩ := hok p (by simp)
    have ih' := ih (fun d' hd' => hok d' (List.mem_cons_of_mem _ hd'))
    simp [developersEffects, h, ih']

theorem appsReached_of_ok (devs : List DeveloperCall) (hok : AllListsOk devs) :
    appsReached devs = devs.flatMap DeveloperCall.appList := by
  induction devs with
  | nil => rfl
  | cons d rest ih =>
    obtain ⟨apps, h⟩ := hok d (by simp)
    have ih' := ih (fun d' hd' => hok d' (List.mem_cons_of_mem _ hd'))
    simp [appsReached, DeveloperCall.appList, h, ih', List.flatMap_cons]

theorem appsReached_fatal (pre : List DeveloperCall) (d : DeveloperCall)
    (post : List DeveloperCall) (err : String)
    (hok : AllListsOk pre) (hd : d.apps = .error err) :
    appsReached (pre ++ d :: post) = appsReached pre := by
  induction pre with
  | nil => simp [appsReached, hd]
  | cons p pre ih =>
    obtain ⟨apps, h⟩ := hok p (by simp)
    have ih' := ih (fun d' hd' => hok d' (List.mem_cons_of_mem _ hd'))
    simp [appsReached, h, ih']

theorem main_of_bootstrap (w : World) (args : List String) (hb : BootstrapOk w args)
    (devs : List DeveloperCall) (hdevs : w.developers = .ok devs) :
    main w args =
      developersLoop w (args.getD 2 "") (dirBackupOf w args) devs
        { trace := bootstrapEffects w args, files := [] } := by
  obtain ⟨hargs, hmk, ⟨json, hrd⟩, hcr, hsv⟩ := hb
  have hlen : ¬ args.length < 4 := by omega
  simp [main, hlen, hmk, hrd, hcr, hsv, hdevs, State.emit, bootstrapEffects, dirBackupOf]

/-! ## Lemmas on the files and on the count of outcomes -/

theorem Files.put_names (fs : Files) (name c : String) (h : name ∉ fs.map Prod.fst) :
    (fs.put name c).map Prod.fst = fs.map Prod.fst ++ [name] := by
  induction fs with
  | nil => simp [Files.put]
  | cons x fs ih =>
    obtain ⟨n, d⟩ := x
    have hn : ¬ n = name := by
      intro hn
      apply h
      simp [hn]
    have ht : name ∉ fs.map Prod.fst := by
      intro ht
      apply h
      simp only [List.map_cons, List.mem_cons]
      exact Or.inr ht
    simp [Files.put, hn, ih ht]

theorem foldl_put_names (ws : List (String × String)) : ∀ fs : Files,
    (fs.map Prod.fst ++ ws.map Prod.fst).Nodup →
    (ws.foldl (fun fs f => Files.put fs f.1 f.2) fs).map Prod.fst =
      fs.map Prod.fst ++ ws.map Prod.fst := by
  induction ws with
  | nil => intro fs _; simp
  | cons x ws ih =>
    intro fs hnd
    have hx : x.1 ∉ fs.map Prod.fst := by
      intro hx
      have := (List.nodup_append.mp hnd).2.2
      exact this hx (by simp)
    have hput := Files.put_names fs x.1 x.2 hx
    rw [List.foldl_cons, ih]
    · rw [hput]
      simp
    · rw [hput]
      simpa using hnd

theorem appFile_names_sublist (w : World) (dirBackup : String) (apps : List AppCall) :
    ((apps.filterMap (appFile w dirBackup)).map Prod.fst).Sublist
      (apps.map (appFileName w dirBackup)) := by
  induction apps with
  | nil => simp
  | cons a apps ih =>
    cases h : appFile w dirBackup a with
    | none =>
      simp only [List.filterMap_cons, h, List.map_cons]
      exact List.Sublist.cons _ ih
    | some f =>
      have hf : f.1 = appFileName w dirBackup a := by
        unfold appFile at h
        unfold appFileName
        cases hg : a.get with
        | error e => simp [hg] at h
        | ok det =>
          simp only [hg] at h
          cases hm : w.MarshalIndent (buildAppBackup a.app det) with
          | error e => simp [hm] at h
          | ok data =>
            simp only [hm] at h
            cases hs : a.save <;> simp [hs] at h <;> rw [← h]
      simp only [List.filterMap_cons, h, List.map_cons, hf]
      exact List.Sublist.cons₂ _ ih

theorem opened_length (w : World) (dirBackup : String) (apps : List AppCall) :
    (apps.filterMap (appFile w dirBackup)).length = apps.countP (opensFile w dirBackup) := by
  induction apps with
  | nil => rfl
  | cons a apps ih =>
    cases h : appFile w dirBackup a with
    | none => simp [List.filterMap_cons, h, List.countP_cons, opensFile, ih]
    | some f => simp [List.filterMap_cons, h, List.countP_cons, opensFile, ih]

theorem ite_eq_toNat (b : Bool) : (if b = true then 1 else 0) = b.toNat := by
  cases b <;> rfl

theorem outcome_cases (w : World) (dirBackup : String) (a : AppCall) :
    (opensFile w dirBackup a).toNat + (fetchFailed a).toNat +
      (marshalFailed w a).toNat + (openFailed w a).toNat = 1 := by
  unfold opensFile appFile fetchFailed marshalFailed openFailed
  cases hg : a.get with
  | error e => rfl
  | ok det =>
    simp only []
    cases hm : w.MarshalIndent (buildAppBackup a.app det) with
    | error e => rfl
    | ok data => cases hs : a.save <;> rfl

theorem outcome_partition (w : World) (dirBackup : String) (apps : List AppCall) :
    apps.countP (opensFile w dirBackup) + apps.countP fetchFailed +
      apps.countP (marshalFailed w) + apps.countP (openFailed w) = apps.length := by
  induction apps with
  | nil => rfl
  | cons a apps ih =>
    have h := outcome_cases w dirBackup a
    simp only [List.countP_cons, List.length_cons, ite_eq_toNat]
    omega

theorem appEffects_countP_write (w : World) (org email dirBackup : String) (a : AppCall) :
    (appEffects w org email dirBackup a).countP Event.isWrite =
      (opensFile w dirBackup a).toNat := by
  unfold appEffects opensFile appFile
  cases hg : a.get with
  | error e => simp [List.countP_cons, Event.isWrite]
  | ok det =>
    simp only []
    cases hm : w.MarshalIndent (buildAppBackup a.app det) with
    | error e => simp [List.countP_cons, Event.isWrite]
    | ok data => cases hs : a.save <;> simp [List.countP_cons, Event.isWrite]

theorem appsEffects_countP_write (w : World) (org email dirBackup : String)
    (apps : List AppCall) :
    (apps.flatMap (appEffects w org email dirBackup)).countP Event.isWrite =
      apps.countP (opensFile w dirBackup) := by
  induction apps with
  | nil => rfl
  | cons a apps ih =>
    rw [List.flatMap_cons, List.countP_append, ih, appEffects_countP_write, List.countP_cons,
      ite_eq_toNat]
    omega

theorem developersEffects_countP_write (w : World) (org dirBackup : String)
    (devs : List DeveloperCall) :
    (developersEffects w org dirBackup devs).countP Event.isWrite =
      (appsReached devs).countP (opensFile w dirBackup) := by
  induction devs with
  | nil => rfl
  | cons d rest ih =>
    unfold developersEffects appsReached
    cases h : d.apps with
    | error e => simp [List.countP_cons, Event.isWrite]
    | ok apps =>
      simp [List.countP_cons, Event.isWrite, List.countP_append, ih, appsEffects_countP_write]

theorem length_flatMap_appList (devs : List DeveloperCall) :
    (devs.flatMap DeveloperCall.appList).length =
      (devs.map (fun d => d.appList.length)).sum := by
  induction devs with
  | nil => rfl
  | cons d rest ih => simp [List.flatMap_cons, ih]

theorem bootstrapEffects_countP_write (w : World) (args : List String) :
    (bootstrapEffects w args).countP Event.isWrite = 0 := by
  simp [bootstrapEffects, List.countP_cons, Event.isWrite]

theorem appEffects_no_println (w : World) (org email dirBackup : String) (a : AppCall) :
    ∀ e ∈ appEffects w org email dirBackup a, e.isPrintln = false := by
  unfold appEffects
  cases hg : a.get with
  | error e => simp [Event.isPrintln]
  | ok det =>
    simp only []
    cases hm : w.MarshalIndent (buildAppBackup a.app det) with
    | error e => simp [Event.isPrintln]
    | ok data => cases hs : a.save <;> simp [Event.isPrintln]

theorem developersEffects_no_println (w : World) (org dirBackup : String)
    (devs : List DeveloperCall) :
    ∀ e ∈ developersEffects w org dirBackup devs, e.isPrintln = false := by
  induction devs with
  | nil => simp [developersEffects]
  | cons d rest ih =>
    unfold developersEffects
    cases h : d.apps with
    | error err => simp [Event.isPrintln]
    | ok apps =>
      intro e he
      simp only [List.mem_cons, List.mem_append, List.mem_flatMap] at he
      rcases he with rfl | ⟨a, _, hea⟩ | he
      · rfl
      · exact appEffects_no_println w org d.Email dirBackup a e hea
      · exact ih e he

theorem main_trace_of_enough_args (w : World) (args : List String) (h : ¬ args.length < 4) :
    (main w args).2.trace.head? = some (Event.mkdir (dirBackupOf w args)) ∧
      ∀ e ∈ (main w args).2.trace, e.isPrintln = false := by
  unfold main
  simp only [h, if_false]
  cases hmk : w.mkdir with
  | some err => simp [State.emit, dirBackupOf, Event.isPrintln]
  | none =>
    cases hrd : w.readFile with
    | error err => simp [State.emit, dirBackupOf, Event.isPrintln]
    | ok json =>
      cases hcr : w.credentialsFromJSON with
      | some err => simp [State.emit, dirBackupOf, Event.isPrintln]
      | none =>
        cases hsv : w.newService with
        | some err => simp [State.emit, dirBackupOf, Event.isPrintln]
        | none =>
          cases hdv : w.developers with
          | error err => simp [State.emit, dirBackupOf, Event.isPrintln]
          | ok devs =>
            simp only [developersLoop_trace, State.emit]
            refine ⟨by simp [dirBackupOf], ?_⟩
            intro e he
            simp only [List.nil_append, List.cons_append, List.mem_cons, List.mem_append,
              List.mem_singleton] at he
            rcases he with rfl | rfl | rfl | rfl | rfl | rfl | he
            · rfl
            · rfl
            · rfl
            · rfl
            · rfl
            · rfl
            · exact developersEffects_no_println _ _ _ _ e he

theorem developersEffects_congr (w w' : World) (org dirBackup : String)
    (hm : w'.MarshalIndent = w.MarshalIndent) (hs : w'.Sprintf = w.Sprintf)
    (devs : List DeveloperCall) :
    developersEffects w' org dirBackup devs = developersEffects w org dirBackup devs := by
  have happ : ∀ email, appEffects w' org email dirBackup = appEffects w org email dirBackup := by
    intro email
    funext a
    simp only [appEffects, hm, hs]
  induction devs with
  | nil => rfl
  | cons d rest ih => simp only [developersEffects, happ, ih]

/-! ## The claims on a run -/

theorem appEffects_get_mem (w : World) (org email dirBackup : String) (a : AppCall) :
    Event.appsGet ("organizations/" ++ org ++ "/developers/" ++ email ++ "/apps/" ++ a.app.AppId) ∈
      appEffects w org email dirBackup a := by
  unfold appEffects
  exact List.mem_cons_self _ _

theorem appEffects_write_mem (w : World) (org email dirBackup : String) (a : AppCall)
    (appDetails : DeveloperApp) (jsonData : String) (hget : a.get = .ok appDetails)
    (hm : w.MarshalIndent (buildAppBackup a.app appDetails) = .ok jsonData) :
    Event.openFile (w.Sprintf (dirBackup ++ "/%s.json") [a.app.AppId]) ∈
      appEffects w org email dirBackup a ∧
    ((∀ err, a.save ≠ .openError err) →
      Event.write (w.Sprintf (dirBackup ++ "/%s.json") [a.app.AppId]) jsonData ∈
        appEffects w org email dirBackup a) := by
  unfold appEffects
  simp only [hget, hm]
  cases hs : a.save with
  | openError err => exact ⟨by simp, fun h => absurd rfl (h err)⟩
  | writeError written err => exact ⟨by simp, fun _ => by simp⟩
  | success => exact ⟨by simp, fun _ => by simp⟩

/-- C9. In a run whose list calls all succeed, a failure of the detail
fetch, of the serialisation or of the file write of one app does not end
the run: `main` returns (exit code 0), the effects of the run are the
effects of every app in enumeration order, each determined by that app
alone (its list entry, the outcome of its own fetch, its own record, its own
file name and content), and the files left are those the apps write, in that
order. Whatever happens to the other apps, every app is fetched, and an app
whose own fetch and serialisation succeed has its file opened under its own
name and, when the file opens, its own JSON written to it. -/
theorem per_app_failures_are_local (w : World) (args : List String)
    (developers : List DeveloperCall) (hb : BootstrapOk w args)
    (hdevs : w.developers = .ok developers) (hlists : AllListsOk developers) :
    (main w args).1 = Exit.returned ∧
    (main w args).1.code = 0 ∧
    (main w args).2.trace =
      bootstrapEffects w args ++
        developers.flatMap (fun d =>
          Event.appsList ("organizations/" ++ args.getD 2 "" ++ "/developers/" ++ d.Email) ::
            d.appList.flatMap (appEffects w (args.getD 2 "") d.Email (dirBackupOf w args))) ∧
    (main w args).2.files =
      ((developers.flatMap DeveloperCall.appList).filterMap
        (appFile w (dirBackupOf w args))).foldl (fun fs f => Files.put fs f.1 f.2) [] ∧
    (∀ d ∈ developers, ∀ a ∈ d.appList,
      Event.appsGet ("organizations/" ++ args.getD 2 "" ++ "/developers/" ++ d.Email ++
          "/apps/" ++ a.app.AppId) ∈ (main w args).2.trace ∧
      ∀ appDetails jsonData, a.get = .ok appDetails →
        w.MarshalIndent (buildAppBackup a.app appDetails) = .ok jsonData →
        Event.openFile (w.Sprintf (dirBackupOf w args ++ "/%s.json") [a.app.AppId]) ∈
          (main w args).2.trace ∧
        ((∀ err, a.save ≠ .openError err) →
          Event.write (w.Sprintf (dirBackupOf w args ++ "/%s.json") [a.app.AppId]) jsonData ∈
            (main w args).2.trace)) := by
  have hexit : (main w args).1 = Exit.returned := by
    rw [main_of_bootstrap w args hb developers hdevs]
    exact developersLoop_exit_returned _ _ _ _ hlists _
  have htrace : (main w args).2.trace =
      bootstrapEffects w args ++
        developers.flatMap (fun d =>
          Event.appsList ("organizations/" ++ args.getD 2 "" ++ "/developers/" ++ d.Email) ::
            d.appList.flatMap (appEffects w (args.getD 2 "") d.Email (dirBackupOf w args))) := by
    rw [main_of_bootstrap w args hb developers hdevs, developersLoop_trace,
      developersEffects_of_ok _ _ _ _ hlists]
  have hsub : ∀ d ∈ developers, ∀ a ∈ d.appList,
      ∀ e ∈ appEffects w (args.getD 2 "") d.Email (dirBackupOf w args) a,
        e ∈ (main w args).2.trace := by
    intro d hd a ha e he
    rw [htrace]
    apply List.mem_append_right
    rw [List.mem_flatMap]
    refine ⟨d, hd, List.mem_cons_of_mem _ ?_⟩
    rw [List.mem_flatMap]
    exact ⟨a, ha, he⟩
  refine ⟨hexit, by rw [hexit]; rfl, htrace, ?_, ?_⟩
  · rw [main_of_bootstrap w args hb developers hdevs, developersLoop_files,
      appsReached_of_ok _ hlists]
  · intro d hd a ha
    refine ⟨hsub d hd a ha _ (appEffects_get_mem _ _ _ _ a), ?_⟩
    intro appDetails jsonData hget hm
    obtain ⟨ho, hw⟩ := appEffects_write_mem w (args.getD 2 "") d.Email (dirBackupOf w args) a
      appDetails jsonData hget hm
    exact ⟨hsub d hd a ha _ ho, fun hne => hsub d hd a ha _ (hw hne)⟩

/-- C3, amended. In a run whose list calls all succeed, the number of app
files the run writes to is the sum of the A_i minus the number of apps whose
detail fetch failed, whose serialisation failed or whose file could not be
opened; when the file names of the apps are pairwise distinct, this is the
number of files the run leaves. -/
theorem files_written_count (w : World) (args : List String)
    (developers : List DeveloperCall) (hb : BootstrapOk w args)
    (hdevs : w.developers = .ok developers) (hlists : AllListsOk developers) :
    (main w args).2.trace.countP Event.isWrite
        + (developers.flatMap DeveloperCall.appList).countP fetchFailed
        + (developers.flatMap DeveloperCall.appList).countP (marshalFailed w)
        + (developers.flatMap DeveloperCall.appList).countP (openFailed w)
      = (developers.map (fun d => d.appList.length)).sum ∧
    (((developers.flatMap DeveloperCall.appList).map
        (appFileName w (dirBackupOf w args))).Nodup →
      (main w args).2.files.length
          + (developers.flatMap DeveloperCall.appList).countP fetchFailed
          + (developers.flatMap DeveloperCall.appList).countP (marshalFailed w)
          + (developers.flatMap DeveloperCall.appList).countP (openFailed w)
        = (developers.map (fun d => d.appList.length)).sum) := by
  have hpart := outcome_partition w (dirBackupOf w args)
    (developers.flatMap DeveloperCall.appList)
  rw [length_flatMap_appList] at hpart
  refine ⟨?_, ?_⟩
  · rw [main_of_bootstrap w args hb developers hdevs, developersLoop_trace,
      List.countP_append, bootstrapEffects_countP_write, developersEffects_countP_write,
      appsReached_of_ok _ hlists]
    omega
  · intro hnd
    have hsub := appFile_names_sublist w (dirBackupOf w args)
      (developers.flatMap DeveloperCall.appList)
    have hnd' := hnd.sublist hsub
    have hnames := foldl_put_names
      ((developers.flatMap DeveloperCall.appList).filterMap (appFile w (dirBackupOf w args)))
      [] (by simpa using hnd')
    have hlen : (main w args).2.files.length =
        (developers.flatMap DeveloperCall.appList).countP (opensFile w (dirBackupOf w args)) := by
      rw [main_of_bootstrap w args hb developers hdevs, developersLoop_files,
        appsReached_of_ok _ hlists, ← opened_length]
      have := congrArg List.length hnames
      simpa using this
    omega

/-- C8. When the steps before it succeed, a failing developer listing ends
the run with exit code 1 and no file written; a failing app listing of a
developer ends the run with exit code 1 right after that listing: the files
are those of the run over the developers before it, and its effects are the
effects of that run followed by the failing listing and its log line, so no
app of that or of a later developer is fetched or written. -/
theorem list_failures_are_fatal (w : World) (args : List String) (hb : BootstrapOk w args) :
    (∀ err, w.developers = .error err →
      (main w args).1.code = 1 ∧
      (main w args).2.files = [] ∧
      (main w args).2.trace = bootstrapEffects w args ++
        [Event.log ("Erro ao obter a lista de developers: " ++ err)]) ∧
    (∀ pre d post err, w.developers = .ok (pre ++ d :: post) → AllListsOk pre →
      d.apps = .error err →
      (main w args).1.code = 1 ∧
      (main w args).2.files = (main { w with developers := .ok pre } args).2.files ∧
      (main w args).2.trace = (main { w with developers := .ok pre } args).2.trace ++
        [Event.appsList ("organizations/" ++ args.getD 2 "" ++ "/developers/" ++ d.Email),
         Event.log ("Erro ao obter a lista de apps do developer " ++ d.Email ++ ": " ++ err)]) := by
  refine ⟨?_, ?_⟩
  · intro err herr
    obtain ⟨hargs, hmk, ⟨json, hrd⟩, hcr, hsv⟩ := hb
    have hlen : ¬ args.length < 4 := by omega
    simp [main, hlen, hmk, hrd, hcr, hsv, herr, State.emit, bootstrapEffects, dirBackupOf,
      Exit.code]
  · intro pre d post err hdevs hpre hd
    have hb' : BootstrapOk { w with developers := .ok pre } args := hb
    have hrun := main_of_bootstrap w args hb _ hdevs
    have hrun' := main_of_bootstrap { w with developers := .ok pre } args hb' pre rfl
    refine ⟨?_, ?_, ?_⟩
    · rw [hrun, developersLoop_exit_fatal _ _ _ pre d post err hpre hd]
      rfl
    · rw [hrun, hrun', developersLoop_files, developersLoop_files,
        appsReached_fatal pre d post err hpre hd]
      rfl
    · rw [hrun, hrun', developersLoop_trace, developersLoop_trace,
        developersEffects_fatal _ _ _ pre d post err hpre hd,
        developersEffects_congr w { w with developers := .ok pre } _ _ rfl rfl]
      simp only [List.append_assoc]
      rfl

/-- C10. With fewer than 3 arguments after the program name, `main` prints
the usage text and returns (exit code 0): its effects are exactly the six
lines of the usage text, in order, so no directory is created, no file is
read or written and no call reaches the platform. With 3 or more it prints
no usage line and its first effect is the creation of the directory named
from the third argument. -/
theorem usage_on_few_arguments (w : World) (args : List String) :
    (args.length - 1 < 3 →
      (main w args).1.code = 0 ∧
      (main w args).2.trace =
        [Event.println "Usage: go run main.go <serviceAccountFile> <organization> <backupDir>",
         Event.println "\nDescription: Este programa faz backup de todos os Apps do Apigee.",
         Event.println "\n- Options: <serviceAccountFile> - Arquivo json do service account",
         Event.println "- Options: <organization> - Organizacao Apigee",
         Event.println "- Options: <backupDir> - Diretorio que deseja criar. OBS: O script cria no final do diretorio _timestamp",
         Event.println "\nEx: go run main.go service-account.json my-org backups"] ∧
      (main w args).2 = help { trace := [], files := [] } ∧
      (main w args).2.files = [] ∧
      ∀ e ∈ (main w args).2.trace, ∃ line, e = Event.println line) ∧
    (3 ≤ args.length - 1 →
      (main w args).2.trace.head? =
        some (Event.mkdir (args.getD 3 "" ++ "_" ++ FormatInt w.now)) ∧
      ∀ line, Event.println line ∉ (main w args).2.trace) := by
  refine ⟨?_, ?_⟩
  · intro h
    have hlen : args.length < 4 := by omega
    simp [main, hlen, help, State.emit, Exit.code]
  · intro h
    have hlen : ¬ args.length < 4 := by omega
    obtain ⟨hhead, hno⟩ := main_trace_of_enough_args w args hlen
    refine ⟨hhead, ?_⟩
    intro line hmem
    have := hno _ hmem
    simp [Event.isPrintln] at this

/-! ## Sample runs -/

theorem sampleWorld_bootstrapOk (developers : Except String (List DeveloperCall)) :
    BootstrapOk (sampleWorld developers) sampleArgs :=
  ⟨by decide, rfl, ⟨_, rfl⟩, rfl, rfl⟩

theorem oneApp_allListsOk (get : Except String DeveloperApp) (save : SaveOutcome) :
    AllListsOk (oneApp get save) := by
  intro d hd
  simp only [oneApp, List.mem_singleton] at hd
  subst hd
  exact ⟨_, rfl⟩

theorem mixedOutcomes_allListsOk : AllListsOk mixedOutcomes := by
  intro d hd
  simp only [mixedOutcomes, List.mem_singleton] at hd
  subst hd
  exact ⟨_, rfl⟩

/-! ## The claims on the record and on the file name -/

/-- C1, amended. For an app whose detail record has no attribute and no
credential, the attribute list and the credential list of the backup record
are nil slices: their length is 0, and `json.MarshalIndent` writes each of
them as `null` under its key, not as an empty array. -/
theorem empty_lists_are_nil (app appDetails : DeveloperApp)
    (hattrs : appDetails.Attributes = []) (hcreds : appDetails.Credentials = []) :
    (buildAppBackup app appDetails).Attributes = none ∧
    (buildAppBackup app appDetails).Credentials = none ∧
    (buildAppBackup app appDetails).Attributes.len = 0 ∧
    (buildAppBackup app appDetails).Credentials.len = 0 ∧
    marshalIndent (buildAppBackup app appDetails) =
      "\x7b\n  \"appId\": " ++ jsonQuote app.AppId ++
      ",\n  \"attributes\": null" ++
      ",\n  \"createdAt\": " ++ FormatInt app.CreatedAt ++
      ",\n  \"credentials\": null" ++
      ",\n  \"developerId\": " ++ jsonQuote app.DeveloperId ++
      ",\n  \"lastModifiedAt\": " ++ FormatInt app.LastModifiedAt ++
      ",\n  \"name\": " ++ jsonQuote app.Name ++
      ",\n  \"status\": " ++ jsonQuote app.Status ++
      ",\n  \"appFamily\": " ++ jsonQuote app.AppFamily ++ "\n\x7d" := by
  have ha : (buildAppBackup app appDetails).Attributes = none := by
    simp [buildAppBackup, buildAttributes_eq, hattrs]
  have hc : (buildAppBackup app appDetails).Credentials = none := by
    simp [buildAppBackup, buildCredentials_eq, hcreds]
  refine ⟨ha, hc, by rw [ha]; rfl, by rw [hc]; rfl, ?_⟩
  unfold marshalIndent
  rw [ha, hc]
  simp only [jsonObject, jsonArray, Option.map, List.map, String.intercalate,
    String.intercalate.go, indentation]
  have h1 : String.join (List.replicate (0 + 1) "  ") = "  " := by decide
  have h0 : String.join (List.replicate 0 "  ") = "" := by decide
  have k1 : jsonQuote "appId" = "\"appId\"" := by decide
  have k2 : jsonQuote "attributes" = "\"attributes\"" := by decide
  have k3 : jsonQuote "createdAt" = "\"createdAt\"" := by decide
  have k4 : jsonQuote "credentials" = "\"credentials\"" := by decide
  have k5 : jsonQuote "developerId" = "\"developerId\"" := by decide
  have k6 : jsonQuote "lastModifiedAt" = "\"lastModifiedAt\"" := by decide
  have k7 : jsonQuote "name" = "\"name\"" := by decide
  have k8 : jsonQuote "status" = "\"status\"" := by decide
  have k9 : jsonQuote "appFamily" = "\"appFamily\"" := by decide
  rw [h1, h0, k1, k2, k3, k4, k5, k6, k7, k8, k9]
  apply String.ext
  simp only [String.data_append, buildAppBackup]
  simp

/-- C1, at a concrete input: for the app `app-123` with no attribute and no
credential the two lists of the record are nil, not empty, and the file the
run writes holds `null` for both. -/
theorem empty_lists_counterexample :
    bareDetails.Attributes = [] ∧ bareDetails.Credentials = [] ∧
    (buildAppBackup sampleEntry bareDetails).Attributes ≠ some [] ∧
    (buildAppBackup sampleEntry bareDetails).Credentials ≠ some [] ∧
    (main (sampleWorld (.ok (oneApp (.ok bareDetails) .success))) sampleArgs).2.files =
      [("backups_1700000000/app-123.json",
        "\x7b\n  \"appId\": \"app-123\",\n  \"attributes\": null,\n  \"createdAt\": 0,\n  \"credentials\": null,\n  \"developerId\": \"\",\n  \"lastModifiedAt\": 0,\n  \"name\": \"\",\n  \"status\": \"\",\n  \"appFamily\": \"\"\n\x7d")] := by
  decide

/-- C1, the amended claim at the app `app-123`. -/
theorem empty_lists_are_nil_witness :
    (buildAppBackup sampleEntry bareDetails).Attributes = none ∧
    (buildAppBackup sampleEntry bareDetails).Credentials = none :=
  ⟨(empty_lists_are_nil sampleEntry bareDetails rfl rfl).1,
   (empty_lists_are_nil sampleEntry bareDetails rfl rfl).2.1⟩

/-- C2, at a concrete input: two list entries with the identifier `app-123`
and different names, paired with the same detail record, give different
backup records; the name and the creation time of the record are those of
the list entry, not those of the detail record. -/
theorem record_follows_list_entry :
    sampleEntry.AppId = renamedEntry.AppId ∧
    buildAppBackup sampleEntry sampleDetails ≠ buildAppBackup renamedEntry sampleDetails ∧
    (buildAppBackup sampleEntry sampleDetails).Name = "" ∧
    (buildAppBackup renamedEntry sampleDetails).Name = "Other" ∧
    sampleDetails.Name = "My App" ∧
    (buildAppBackup sampleEntry sampleDetails).CreatedAt = 0 ∧
    sampleDetails.CreatedAt = 1690000000000 := by
  decide

theorem doPrintf_of_no_percent (pre rest : List Char) (args : List String)
    (h : '%' ∉ pre) :
    doPrintf (pre ++ rest) args = (doPrintf rest args).map (fun out => pre ++ out) := by
  induction pre with
  | nil => simp
  | cons c cs ih =>
    have hc : c ≠ '%' := fun hc => h (by simp [hc])
    have hcs : '%' ∉ cs := fun hcs => h (List.mem_cons_of_mem _ hcs)
    rw [List.cons_append, doPrintf.eq_def]
    simp only [hc, ne_eq, not_false_eq_true, if_true, ih hcs, Option.map_map]
    rfl

/-- For a directory name without a percent sign the file name is the
directory name, a slash, the app identifier verbatim and `.json`. -/
theorem appFilename_of_no_percent (dirBackup appId : String) (h : '%' ∉ dirBackup.data) :
    appFilename dirBackup appId = some (dirBackup ++ "/" ++ appId ++ ".json") := by
  unfold appFilename Sprintf
  rw [String.data_append, doPrintf_of_no_percent _ _ _ h]
  have : doPrintf "/%s.json".data [appId] = some ("/".data ++ appId.data ++ ".json".data) := by
    simp [doPrintf]
  rw [this]
  simp only [Option.map_some', Option.some.injEq]
  apply String.ext
  simp [String.data_append]

theorem FormatInt_no_percent (t : Int) : '%' ∉ (FormatInt t).data := by
  have hd : '%' ∉ formatUint t.natAbs := by
    intro h
    have := formatUint_isDigit _ _ h
    revert this
    decide
  by_cases hneg : t < 0
  · simp only [FormatInt, hneg, if_true, List.mem_cons, not_or]
    exact ⟨by decide, hd⟩
  · simpa only [FormatInt, hneg, if_false] using hd

/-- For a directory argument without a percent sign the file of an app is
the created directory, a slash, the app identifier verbatim and `.json`. -/
theorem appFilename_of_plain_directory (backupDir : String) (t : Int) (appId : String)
    (h : '%' ∉ backupDir.data) :
    appFilename (backupDir ++ "_" ++ FormatInt t) appId =
      some (backupDir ++ "_" ++ FormatInt t ++ "/" ++ appId ++ ".json") := by
  apply appFilename_of_no_percent
  simp only [String.data_append, List.mem_append, not_or]
  exact ⟨⟨h, by decide⟩, FormatInt_no_percent t⟩

/-- C4, at a concrete input: with the directory argument `bk%s` and the
start time 1700000000 the file of the app `app-123` is not
`bk%s_1700000000/app-123.json`: the directory name is read as part of the
format, its `%s` takes the app identifier and the `%s` meant for it finds no
operand. The run creates the directory `bk%s_1700000000` and writes the file
under another name. -/
theorem filename_is_a_format :
    appFilename ("bk%s" ++ "_" ++ FormatInt 1700000000) "app-123" =
      some "bkapp-123_1700000000/%!s(MISSING).json" ∧
    "bk%s" ++ "_" ++ FormatInt 1700000000 ++ "/" ++ "app-123" ++ ".json" =
      "bk%s_1700000000/app-123.json" ∧
    appFilename ("bk%s" ++ "_" ++ FormatInt 1700000000) "app-123" ≠
      some ("bk%s" ++ "_" ++ FormatInt 1700000000 ++ "/" ++ "app-123" ++ ".json") ∧
    (main (sampleWorld (.ok (oneApp (.ok sampleDetails) .success)))
      ["backup_apps", "service-account.json", "my-org", "bk%s"]).2.trace.head? =
      some (Event.mkdir "bk%s_1700000000") ∧
    (main (sampleWorld (.ok (oneApp (.ok sampleDetails) .success)))
      ["backup_apps", "service-account.json", "my-org", "bk%s"]).2.files.map Prod.fst =
      ["bkapp-123_1700000000/%!s(MISSING).json"] := by
  decide

/-! ## The claims at concrete inputs -/

/-- C3, at a concrete input: one developer with one app whose detail fetch
succeeds and whose file cannot be opened; no list call and no detail fetch
fails, the sum of the A_i is 1, and the run writes no file. -/
theorem files_written_counterexample :
    (main (sampleWorld (.ok (oneApp (.ok sampleDetails) (.openError "permission denied"))))
      sampleArgs).1 = Exit.returned ∧
    ((oneApp (.ok sampleDetails) (.openError "permission denied")).map
      (fun d => d.appList.length)).sum = 1 ∧
    ((oneApp (.ok sampleDetails) (.openError "permission denied")).flatMap
      DeveloperCall.appList).countP fetchFailed = 0 ∧
    (main (sampleWorld (.ok (oneApp (.ok sampleDetails) (.openError "permission denied"))))
      sampleArgs).2.files = [] ∧
    (main (sampleWorld (.ok (oneApp (.ok sampleDetails) (.openError "permission denied"))))
      sampleArgs).2.trace.countP Event.isWrite = 0 ∧
    (main (sampleWorld (.ok (oneApp (.ok sampleDetails) (.openError "permission denied"))))
      sampleArgs).2.files.length ≠
      ((oneApp (.ok sampleDetails) (.openError "permission denied")).map
        (fun d => d.appList.length)).sum -
      ((oneApp (.ok sampleDetails) (.openError "permission denied")).flatMap
        DeveloperCall.appList).countP fetchFailed := by
  decide

/-- C3, the amended claim on the run with three apps of which one is not
fetched and one cannot open its file: one file is written. -/
theorem files_written_count_witness :
    (main (sampleWorld (.ok mixedOutcomes)) sampleArgs).2.trace.countP Event.isWrite
        + (mixedOutcomes.flatMap DeveloperCall.appList).countP fetchFailed
        + (mixedOutcomes.flatMap DeveloperCall.appList).countP
            (marshalFailed (sampleWorld (.ok mixedOutcomes)))
        + (mixedOutcomes.flatMap DeveloperCall.appList).countP
            (openFailed (sampleWorld (.ok mixedOutcomes)))
      = (mixedOutcomes.map (fun d => d.appList.length)).sum :=
  (files_written_count (sampleWorld (.ok mixedOutcomes)) sampleArgs mixedOutcomes
    (sampleWorld_bootstrapOk _) rfl mixedOutcomes_allListsOk).1

/-- C5, at the two extreme timestamps. -/
theorem credential_timestamps_exact_witness :
    IsInt64 (-9223372036854775808) ∧ IsInt64 9223372036854775807 ∧
    ∃ c : CredentialEntry,
      (buildAppBackup sampleEntry extremeDetails).Credentials.toList[0]? = some c ∧
      IsDecimalOf c.IssuedAt (-9223372036854775808) ∧
      ParseInt c.IssuedAt = some (-9223372036854775808) ∧
      IsDecimalOf c.ExpiresAt 9223372036854775807 ∧
      ParseInt c.ExpiresAt = some 9223372036854775807 :=
  ⟨by decide, by decide,
   credential_timestamps_exact sampleEntry extremeDetails 0 (by decide) (by decide) (by decide)⟩

/-- C7, at the sample detail record with two attributes. -/
theorem attributes_copied_in_order_witness :
    sampleDetails.Attributes ≠ [] ∧
    (buildAppBackup sampleEntry sampleDetails).Attributes ≠ none ∧
    (buildAppBackup sampleEntry sampleDetails).Attributes.len = 2 :=
  ⟨by decide,
   (attributes_copied_in_order sampleEntry sampleDetails (by decide)).1,
   (attributes_copied_in_order sampleEntry sampleDetails (by decide)).2.1⟩

/-- C8, on a run whose second developer cannot be listed: exit code 1, and
the files are those of the run over the first developer. -/
theorem list_failures_are_fatal_witness :
    (main (sampleWorld (.ok secondListFails)) sampleArgs).1.code = 1 ∧
    (main (sampleWorld (.ok secondListFails)) sampleArgs).2.files =
      (main (sampleWorld (.ok (oneApp (.ok sampleDetails) .success))) sampleArgs).2.files :=
  ⟨((list_failures_are_fatal (sampleWorld (.ok secondListFails)) sampleArgs
      (sampleWorld_bootstrapOk _)).2 (oneApp (.ok sampleDetails) .success)
      { Email := "late@acme.com", apps := .error "503" }
      [{ Email := "never@acme.com",
         apps := .ok [{ app := renamedEntry, get := .ok sampleDetails, save := .success }] }]
      "503" rfl (oneApp_allListsOk _ _) rfl).1,
   ((list_failures_are_fatal (sampleWorld (.ok secondListFails)) sampleArgs
      (sampleWorld_bootstrapOk _)).2 (oneApp (.ok sampleDetails) .success)
      { Email := "late@acme.com", apps := .error "503" }
      [{ Email := "never@acme.com",
         apps := .ok [{ app := renamedEntry, get := .ok sampleDetails, save := .success }] }]
      "503" rfl (oneApp_allListsOk _ _) rfl).2.1⟩

/-- C9, on the run with three apps of which one is not fetched and one
cannot open its file: the run returns with exit code 0. -/
theorem per_app_failures_are_local_witness :
    (main (sampleWorld (.ok mixedOutcomes)) sampleArgs).1 = Exit.returned ∧
    (main (sampleWorld (.ok mixedOutcomes)) sampleArgs).1.code = 0 :=
  ⟨(per_app_failures_are_local (sampleWorld (.ok mixedOutcomes)) sampleArgs mixedOutcomes
      (sampleWorld_bootstrapOk _) rfl mixedOutcomes_allListsOk).1,
   (per_app_failures_are_local (sampleWorld (.ok mixedOutcomes)) sampleArgs mixedOutcomes
      (sampleWorld_bootstrapOk _) rfl mixedOutcomes_allListsOk).2.1⟩

/-- C10, with two arguments and with three: the two-argument run prints the
six usage lines and nothing else; the three-argument run starts by creating
`backups_1700000000`. -/
theorem usage_on_few_arguments_witness :
    (main (sampleWorld (.ok [])) ["backup_apps", "service-account.json", "my-org"]).1.code = 0 ∧
    (main (sampleWorld (.ok [])) ["backup_apps", "service-account.json", "my-org"]).2.trace =
        [Event.println "Usage: go run main.go <serviceAccountFile> <organization> <backupDir>",
         Event.println "\nDescription: Este programa faz backup de todos os Apps do Apigee.",
         Event.println "\n- Options: <serviceAccountFile> - Arquivo json do service account",
         Event.println "- Options: <organization> - Organizacao Apigee",
         Event.println "- Options: <backupDir> - Diretorio que deseja criar. OBS: O script cria no final do diretorio _timestamp",
         Event.println "\nEx: go run main.go service-account.json my-org backups"] ∧
    (main (sampleWorld (.ok [])) sampleArgs).2.trace.head? =
      some (Event.mkdir "backups_1700000000") :=
  ⟨((usage_on_few_arguments (sampleWorld (.ok []))
      ["backup_apps", "service-account.json", "my-org"]).1 (by decide)).1,
   ((usage_on_few_arguments (sampleWorld (.ok []))
      ["backup_apps", "service-account.json", "my-org"]).1 (by decide)).2.1,
   ((usage_on_few_arguments (sampleWorld (.ok [])) sampleArgs).2 (by decide)).1⟩

end BackupApps
